import Mathlib

/-!
# Verification of the physics knowledge-base ingestion/retrieval pipeline

A shallow embedding of `physics_knowledge_db.py` (class `PhysicsKnowledgeBase`):
the per-page chunker inside `read_paper`, the ingestion pipeline
`crawl_physics_knowledge`, the retrieval function `query_physics_db`, and the
reference resolver `get_reference`.

Python strings are modelled as Lean `String`s; the character-level operations
`str.split()`, `" ".join(...)` and `str.strip()` are defined on the underlying
`List Char`.  The external collaborators (ArXiv discovery, PDF download and
extraction, GitHub fetching, the sentence-transformer `encode`, and the
ChromaDB calls) are modelled by an explicit environment fixed up front, so one
run of the pipeline is a pure function of that environment.  The ChromaDB
collection is an association list keyed by chunk id; `upsert` replaces an
existing id in place and appends a new one, which is the collection's
insert-or-overwrite contract.  Embedding vectors are never inspected by the
code being verified (they are produced and handed to the store), so only the
success or failure of `encode` is modelled, not the vector values; likewise a
ChromaDB distance is carried through `query_physics_db` unchanged, so it is
modelled as an opaque integer payload.
-/

namespace PhysKB

/-! ## String primitives (`str.split`, `" ".join`, `str.strip`, truthiness) -/

/-- The class of characters Python's `str.split()` (no separator argument)
splits on. -/
def ws (c : Char) : Bool := c.isWhitespace

/-- Accumulator-based word splitter over the characters of a string: `acc`
holds the (reversed) characters of the word currently being read.  Models
Python's `str.split()` with no arguments: maximal runs of non-whitespace
characters, in order, with no empty words. -/
def splitWordsAux : List Char → List Char → List (List Char)
  | [], acc => if acc.isEmpty then [] else [acc.reverse]
  | c :: cs, acc =>
    if ws c then
      if acc.isEmpty then splitWordsAux cs [] else acc.reverse :: splitWordsAux cs []
    else
      splitWordsAux cs (c :: acc)

/-- The words of a character list, as produced by Python's `str.split()`. -/
def splitWords (s : List Char) : List (List Char) := splitWordsAux s []

/-- `" ".join(words)` on character lists: the words separated by single
spaces. -/
def joinWords : List (List Char) → List Char
  | [] => []
  | [w] => w
  | w :: l => w ++ ' ' :: joinWords l

/-- Python's `str.strip()`: remove leading and trailing whitespace. -/
def stripChars (s : List Char) : List Char :=
  ((s.dropWhile ws).reverse.dropWhile ws).reverse

/-- `s.split()` for Lean `String`s. -/
def pySplit (s : String) : List String := (splitWords s.data).map String.mk

/-- `" ".join(l)` for Lean `String`s. -/
def pyJoin (l : List String) : String := String.mk (joinWords (l.map String.data))

/-- `s.strip()` for Lean `String`s. -/
def pyStrip (s : String) : String := String.mk (stripChars s.data)

/-- Python truthiness of a string: non-empty. -/
def truthy (s : String) : Bool := !s.data.isEmpty

/-- Python truthiness of an optional string (`None` and `""` are falsy). -/
def truthyOpt : Option String → Bool
  | none => false
  | some s => truthy s

/-- Number of words of a string, `len(s.split())`. -/
def wordCount (s : String) : Nat := (pySplit s).length

/-! ## Windows: `xs[i:i+n]` for `i in range(0, len(xs), n)`

Defined structurally with a fuel argument (the list's length) so that it
computes by reduction; `windows_cons` below recovers the intended recursion.
Python's `range` requires a positive step, and the pipeline only ever uses
`n = 500`; theorems that need it assume `1 ≤ n`. -/

/-- Fueled worker for `windows`. -/
def windowsGo (n : Nat) : Nat → List α → List (List α)
  | _, [] => []
  | 0, _ :: _ => []
  | fuel + 1, x :: xs => (x :: xs.take (n - 1)) :: windowsGo n fuel (xs.drop (n - 1))

/-- The consecutive non-overlapping windows of at most `n` elements of a list,
in order: the slices `xs[i:i+n]` for `i = 0, n, 2n, ...`. -/
def windows (n : Nat) (xs : List α) : List (List α) := windowsGo n xs.length xs

/-! ## Decimal rendering of an index (Python `f"...{i}"`) -/

/-- The character of one decimal digit. -/
def digitChar : Nat → Char
  | 0 => '0' | 1 => '1' | 2 => '2' | 3 => '3' | 4 => '4'
  | 5 => '5' | 6 => '6' | 7 => '7' | 8 => '8' | _ => '9'

/-- Fueled worker producing the decimal digit characters of `n`, least
significant first (fuel keeps the recursion structural, so it computes). -/
def natCharsGo : Nat → Nat → List Char
  | _, 0 => []
  | 0, _ + 1 => []
  | fuel + 1, n + 1 => digitChar ((n + 1) % 10) :: natCharsGo fuel ((n + 1) / 10)

/-- The decimal digits of a natural number, most significant first: the
characters Python's string formatting produces for a non-negative `int`. -/
def natChars (n : Nat) : List Char :=
  if n = 0 then ['0'] else (natCharsGo n n).reverse

/-- Decimal rendering of a natural number as a string. -/
def natStr (n : Nat) : String := String.mk (natChars n)

/-! ## Data model -/

/-- One chunk produced by the chunker in `read_paper`:
`{"text": ..., "page_number": ...}`. -/
structure Chunk where
  text : String
  page_number : Nat
deriving DecidableEq, Repr

/-- ChromaDB metadata attached to one stored chunk.  The Python code builds
these as dicts; every field is optional because a raw store hit may lack keys
(read back with `meta.get(key, default)` in `query_physics_db` and
`get_reference`). -/
structure Metadata where
  source_id : Option String := none
  title : Option String := none
  page : Option Int := none
  url : Option String := none
  type_ : Option String := none
deriving DecidableEq, Repr

/-- One persisted record of the collection: the document text and its
metadata.  The embedding vector is not modelled (its values are never read by
the code under verification). -/
structure Entry where
  text : String
  meta : Metadata
deriving DecidableEq, Repr

/-- The value cached in `self._paper_metadata[paper_id]` by `search_arxiv`. -/
structure CachedMeta where
  title : String
  url : String
  summary : String
  repo_url : Option String
deriving DecidableEq, Repr

/-- One ArXiv discovery result as assembled by `search_arxiv`: id, title,
PDF url, abstract, and the optional GitHub URL.  (In the code the GitHub URL
is extracted from the abstract by `GITHUB_PATTERN.search`; that regex match is
folded into the discovery outcome here.) -/
structure Paper where
  paper_id : String
  title : String
  pdf_url : String
  summary : String
  repo_url : Option String
deriving DecidableEq, Repr

/-- The result of `fetch_github_context`: README and requirements text, each
empty if unavailable (all fetch failures are caught inside that function). -/
structure GithubContext where
  readme : String
  requirements : String
deriving DecidableEq, Repr

/-- `{title, url}` returned by `get_reference`. -/
structure Reference where
  title : String
  url : String
deriving DecidableEq, Repr

/-- One raw hit of a ChromaDB query: document text, metadata, distance (an
opaque numeric payload; the code does no arithmetic on it). -/
structure RawHit where
  doc : String
  meta : Metadata
  dist : Int
deriving DecidableEq, Repr

/-- One element of the list returned by `query_physics_db`. -/
structure QueryResult where
  text : String
  source_id : String
  title : String
  page : Int
  url : String
  distance : Int
deriving DecidableEq, Repr

/-! ## Association-list store (ChromaDB collection and `_paper_metadata`) -/

/-- Insert-or-overwrite one key: the semantics of `collection.upsert` for one
id and of `dict[key] = value`. -/
def write (k : String) (v : α) : List (String × α) → List (String × α)
  | [] => [(k, v)]
  | kv :: rest => if kv.1 = k then (k, v) :: rest else kv :: write k v rest

/-- Apply a batch of writes in order. -/
def applyWrites (l : List (String × α)) (s : List (String × α)) :
    List (String × α) :=
  l.foldl (fun acc kv => write kv.1 kv.2 acc) s

/-- First-occurrence key lookup (`dict[key]` / a get by id). -/
def lookupKey (k : String) : List (String × α) → Option α
  | [] => none
  | kv :: rest => if kv.1 = k then some kv.2 else lookupKey k rest

/-- The keys of an association list. -/
def keys (s : List (String × α)) : List String := s.map Prod.fst

/-- The value of the last write for `k` in a batch, if any. -/
def lastWrite (k : String) : List (String × α) → Option α
  | [] => none
  | kv :: rest => (lastWrite k rest).orElse (fun _ => if kv.1 = k then some kv.2 else none)

/-! ## Mutable state of a `PhysicsKnowledgeBase` -/

/-- The two pieces of shared mutable state: the in-process reference cache
`_paper_metadata` and the persistent ChromaDB collection, keyed by chunk id. -/
structure KBState where
  paper_metadata : List (String × CachedMeta)
  store : List (String × Entry)
deriving DecidableEq, Repr

/-- External-collaborator outcomes for one run, fixed up front: each pipeline
function is a pure function of this environment. -/
structure Env where
  /-- Outcome of the ArXiv search for a (query, max_results) pair: `.error`
  models the `arxiv` client raising (caught in `search_arxiv`), `.ok` the
  papers yielded, in order. -/
  search : String → Nat → Except Unit (List Paper)
  /-- PDF download and extraction for a `pdf_url`: `none` models a
  download/parse failure (caught in `read_paper`), `some pages` the ordered
  page texts.  A failure is modelled as occurring before any page is read. -/
  extractPages : String → Option (List String)
  /-- GitHub context for a `repo_url` (fetch failures already degraded to
  empty strings inside `fetch_github_context`). -/
  github : String → GithubContext
  /-- Whether `self.embedding_model.encode(texts)` succeeds on this batch;
  when `false`, `encode` raises. -/
  embedOk : List String → Bool
  /-- Whether `self.collection.upsert` succeeds for the batch with these ids;
  when `false`, `upsert` raises (caught in `crawl_physics_knowledge`). -/
  upsertOk : List String → Bool
  /-- Outcome of the embed-the-question plus `collection.query` sequence in
  `query_physics_db`: `.error` models either call raising (caught there),
  `.ok hits` the ranked (document, metadata, distance) triples. -/
  query : String → Nat → Except Unit (List RawHit)

/-- The exception that can escape `crawl_physics_knowledge`: a failure of the
unguarded `self.embedding_model.encode(...)` calls. -/
inductive CrawlExn where
  | embeddingError
deriving DecidableEq, Repr

/-! ## The program -/

/-- The per-page chunker inlined in `read_paper`: guard `if text.strip():`,
`words = text.split()`, the slices `words[i:i+chunk_size]` for
`i in range(0, len(words), chunk_size)` re-joined with `" ".join`, kept under
`if chunk_text.strip():`, and tagged with the page number. -/
def chunkPage (text : String) (pageNumber : Nat) (chunkSize : Nat) : List Chunk :=
  if truthy (pyStrip text) then
    (windows chunkSize (pySplit text)).filterMap fun w =>
      let chunkText := pyJoin w
      if truthy (pyStrip chunkText) then some ⟨chunkText, pageNumber⟩ else none
  else []

/-- `read_paper`: download the PDF and chunk every page, pages numbered from 1
(`page_num + 1`); every download or parse failure is caught inside and yields
no chunks. -/
def read_paper (env : Env) (pdf_url : String) (chunk_size : Nat) : List Chunk :=
  match env.extractPages pdf_url with
  | none => []
  | some pages =>
      (pages.enum.map fun pt => chunkPage pt.2 (pt.1 + 1) chunk_size).flatten

/-- The record `search_arxiv` caches in `self._paper_metadata` for one
paper. -/
def cacheEntry (p : Paper) : CachedMeta :=
  { title := p.title, url := p.pdf_url, summary := p.summary, repo_url := p.repo_url }

/-- `search_arxiv`: on success return the papers in order, caching each
paper's metadata under its id as it is yielded; on an `arxiv` failure (caught)
return no results and leave the cache as it was. -/
def search_arxiv (env : Env) (st : KBState) (query : String) (max_results : Nat) :
    List Paper × KBState :=
  match env.search query max_results with
  | .error _ => ([], st)
  | .ok papers =>
      (papers,
       { st with paper_metadata :=
           papers.foldl (fun c p => write p.paper_id (cacheEntry p) c) st.paper_metadata })

/-- Metadata stored with one primary-content chunk. -/
def primaryMeta (p : Paper) (c : Chunk) : Metadata :=
  { source_id := some p.paper_id, title := some p.title,
    page := some (c.page_number : Int), url := some p.pdf_url,
    type_ := some "paper_content" }

/-- The primary-content batch of one paper: for `chunk_idx, chunk` in
`enumerate(chunks)`, id `f"{paper_id}_chunk_{chunk_idx}"` with the chunk text
and its metadata. -/
def primaryBatch (p : Paper) (chunks : List Chunk) : List (String × Entry) :=
  chunks.enum.map fun ic =>
    (p.paper_id ++ "_chunk_" ++ natStr ic.1, ⟨ic.2.text, primaryMeta p ic.2⟩)

/-- The README part of the GitHub batch: under `if github_context["readme"]:`,
the README words are sliced `readme_words[i:i+500]` exactly like a page, each
non-blank slice joined and stored under
`f"{paper_id}_github_readme_{i // chunk_size}"` (the 0-based window index). -/
def readmeBatch (p : Paper) (repo : String) (readme : String) :
    List (String × Entry) :=
  if truthy readme then
    (windows 500 (pySplit readme)).enum.filterMap fun iw =>
      let chunkText := pyJoin iw.2
      if truthy (pyStrip chunkText) then
        some (p.paper_id ++ "_github_readme_" ++ natStr iw.1,
          ⟨chunkText,
           { source_id := some p.paper_id,
             title := some (p.title ++ " - GitHub README"), page := some 0,
             url := some repo, type_ := some "implementation_details" }⟩)
      else none
  else []

/-- The requirements part of the GitHub batch: under
`if github_context["requirements"]:`, one single un-chunked document
`f"Dependencies and requirements: {...}"` with the fixed id
`f"{paper_id}_github_requirements"`. -/
def requirementsBatch (p : Paper) (repo : String) (req : String) :
    List (String × Entry) :=
  if truthy req then
    [(p.paper_id ++ "_github_requirements",
      ⟨"Dependencies and requirements: " ++ req,
       { source_id := some p.paper_id, title := some (p.title ++ " - Dependencies"),
         page := some 0, url := some repo,
         type_ := some "implementation_details" }⟩)]
  else []

/-- The whole GitHub batch of one paper (README chunks then the requirements
document, the order in which the code appends them). -/
def githubBatch (p : Paper) (repo : String) (ctx : GithubContext) :
    List (String × Entry) :=
  readmeBatch p repo ctx.readme ++ requirementsBatch p repo ctx.requirements

/-- One iteration of the paper loop of `crawl_physics_knowledge`: skip on no
chunks; build and embed the primary batch (`encode` unguarded — a failure
raises); upsert it under `try/except`, counting it only on success; then, if
the descriptor carries a repository URL, fetch the GitHub context, build that
batch, and (when non-empty) embed (unguarded) and upsert it under
`try/except` the same way. -/
def processPaper (env : Env) (acc : Nat × KBState) (p : Paper) :
    Except CrawlExn (Nat × KBState) :=
  let total := acc.1
  let st := acc.2
  let chunks := read_paper env p.pdf_url 500
  if chunks.isEmpty then .ok (total, st)
  else
    let batch := primaryBatch p chunks
    let documents := batch.map fun e => e.2.text
    let ids := batch.map Prod.fst
    if !env.embedOk documents then .error .embeddingError
    else
      let next :=
        if env.upsertOk ids then
          (total + documents.length, { st with store := applyWrites batch st.store })
        else (total, st)
      if truthyOpt p.repo_url then
        let repo := p.repo_url.getD ""
        let gbatch := githubBatch p repo (env.github repo)
        let gdocs := gbatch.map fun e => e.2.text
        let gids := gbatch.map Prod.fst
        if gbatch.isEmpty then .ok next
        else if !env.embedOk gdocs then .error .embeddingError
        else if env.upsertOk gids then
          .ok (next.1 + gdocs.length,
               { next.2 with store := applyWrites gbatch next.2.store })
        else .ok next
      else .ok next

/-- `crawl_physics_knowledge`: search ArXiv (failures caught inside
`search_arxiv`); with no papers return 0; otherwise process the papers in
order, threading the running total and the state.  The only exception that can
escape is a failure of the unguarded `encode` calls. -/
def crawl_physics_knowledge (env : Env) (st : KBState) (topic : String)
    (max_papers : Nat) : Except CrawlExn (Nat × KBState) :=
  let sr := search_arxiv env st topic max_papers
  if sr.1.isEmpty then .ok (0, sr.2)
  else sr.1.foldlM (processPaper env) (0, sr.2)

/-- `query_physics_db`: embed the question and query the collection (both
under one `try/except`: a failure yields no results); map every raw hit to a
result record, defaulting missing metadata with `meta.get("source_id",
"Unknown")`, `meta.get("title", "Unknown")`, `meta.get("page", 0)` and
`meta.get("url", "")`. -/
def query_physics_db (env : Env) (question : String) (n_results : Nat) :
    List QueryResult :=
  match env.query question n_results with
  | .error _ => []
  | .ok hits =>
      hits.map fun h =>
        { text := h.doc
          source_id := h.meta.source_id.getD "Unknown"
          title := h.meta.title.getD "Unknown"
          page := h.meta.page.getD 0
          url := h.meta.url.getD ""
          distance := h.dist }

/-- `get_reference`: tier 1 is the in-process cache `_paper_metadata`; tier 2
is `collection.get(where={"source_id": paper_id}, limit=1)`, modelled as the
first stored entry whose metadata carries this `source_id`, read back with
`meta.get("title", "Unknown")` and `meta.get("url", "")`; otherwise `None`. -/
def get_reference (st : KBState) (paper_id : String) : Option Reference :=
  match lookupKey paper_id st.paper_metadata with
  | some m => some { title := m.title, url := m.url }
  | none =>
      match st.store.find? fun e => e.2.meta.source_id == some paper_id with
      | some e =>
          some { title := e.2.meta.title.getD "Unknown", url := e.2.meta.url.getD "" }
      | none => none

/-- `get_collection_stats`: the collection's `count()`. -/
def get_collection_stats (st : KBState) : Nat := st.store.length

/-! ## Environment-determined run summary

`crawl_physics_knowledge` never reads the store or the cache, so its outcome
is fully determined by the environment: which papers embed successfully, what
each paper contributes to the returned total, and which writes reach the two
state components.  These functions state that summary; `crawl_eq` below proves
the pipeline equal to it. -/

/-- The papers the crawl will iterate over ([] if discovery failed). -/
def papersOf (env : Env) (topic : String) (maxp : Nat) : List Paper :=
  match env.search topic maxp with
  | .error _ => []
  | .ok ps => ps

/-- The GitHub batch a paper will produce (empty when it carries no repository
URL). -/
def ghBatchOf (env : Env) (p : Paper) : List (String × Entry) :=
  if truthyOpt p.repo_url then
    githubBatch p (p.repo_url.getD "") (env.github (p.repo_url.getD ""))
  else []

/-- Whether processing this paper avoids raising from `encode`: vacuously if
it yields no chunks; otherwise the primary batch must embed, and the GitHub
batch too when it exists and is non-empty. -/
def paperEmbedOk (env : Env) (p : Paper) : Bool :=
  let chunks := read_paper env p.pdf_url 500
  chunks.isEmpty ||
    (env.embedOk ((primaryBatch p chunks).map fun e => e.2.text) &&
      (let gbatch := ghBatchOf env p
       gbatch.isEmpty || env.embedOk (gbatch.map fun e => e.2.text)))

/-- The writes this paper's processing sends to the store: its primary batch
when that upsert succeeds, then its GitHub batch when that upsert succeeds. -/
def paperWrites (env : Env) (p : Paper) : List (String × Entry) :=
  let chunks := read_paper env p.pdf_url 500
  if chunks.isEmpty then []
  else
    let batch := primaryBatch p chunks
    let gbatch := ghBatchOf env p
    (if env.upsertOk (batch.map Prod.fst) then batch else []) ++
      (if !gbatch.isEmpty && env.upsertOk (gbatch.map Prod.fst) then gbatch else [])

/-- What this paper adds to the returned total: the size of each of its
batches whose upsert succeeded. -/
def paperCount (env : Env) (p : Paper) : Nat :=
  let chunks := read_paper env p.pdf_url 500
  if chunks.isEmpty then 0
  else
    let batch := primaryBatch p chunks
    let gbatch := ghBatchOf env p
    (if env.upsertOk (batch.map Prod.fst) then batch.length else 0) +
      (if !gbatch.isEmpty && env.upsertOk (gbatch.map Prod.fst) then gbatch.length else 0)

/-- The cache writes of one crawl: each discovered paper's metadata under its
id, in discovery order. -/
def cacheWritesOf (env : Env) (topic : String) (maxp : Nat) :
    List (String × CachedMeta) :=
  (papersOf env topic maxp).map fun p => (p.paper_id, cacheEntry p)

/-- The store writes of one crawl, in order. -/
def storeWritesOf (env : Env) (topic : String) (maxp : Nat) :
    List (String × Entry) :=
  ((papersOf env topic maxp).map (paperWrites env)).flatten

/-- The total the crawl returns when it does not raise. -/
def crawlCount (env : Env) (topic : String) (maxp : Nat) : Nat :=
  ((papersOf env topic maxp).map (paperCount env)).sum

/-- Whether the crawl completes without an `encode` failure. -/
def crawlOk (env : Env) (topic : String) (maxp : Nat) : Bool :=
  (papersOf env topic maxp).all (paperEmbedOk env)

/-- All chunk ids generated while ingesting one document (primary chunk ids,
then GitHub README chunk ids, then the requirements id), whether or not their
upserts succeed. -/
def docIds (env : Env) (p : Paper) : List String :=
  let chunks := read_paper env p.pdf_url 500
  if chunks.isEmpty then []
  else (primaryBatch p chunks).map Prod.fst ++ (ghBatchOf env p).map Prod.fst

/-! ## Concrete test fixtures used by witnesses and counterexamples -/

/-- A paper with no repository reference. -/
def paper1 : Paper := ⟨"p1", "T1", "u1", "s1", none⟩

/-- A fresh knowledge base: empty cache, empty collection. -/
def stEmpty : KBState := ⟨[], []⟩

/-- A page of 1200 identical one-letter words (concrete scenario A). -/
def scenarioPage : String := pyJoin (List.replicate 1200 "w")

/-- Discovery yields one paper, extraction one two-word page, everything
succeeds. -/
def envOkC5 : Env :=
  ⟨fun _ _ => .ok [paper1], fun _ => some ["hello world"], fun _ => ⟨"", ""⟩,
   fun _ => true, fun _ => true, fun _ _ => .ok []⟩

/-- The state one successful crawl of `envOkC5` produces from `stEmpty`. -/
def stC5 : KBState :=
  ⟨[("p1", cacheEntry paper1)],
   [("p1_chunk_0", ⟨"hello world",
      ⟨some "p1", some "T1", some 1, some "u1", some "paper_content"⟩⟩)]⟩

/-- Like `envOkC5` but every `encode` call fails. -/
def envEmbedFail : Env :=
  ⟨fun _ _ => .ok [paper1], fun _ => some ["hello world"], fun _ => ⟨"", ""⟩,
   fun _ => false, fun _ => true, fun _ _ => .ok []⟩

/-- Like `envOkC5` but every `upsert` call fails. -/
def envUpsertFail : Env :=
  ⟨fun _ _ => .ok [paper1], fun _ => some ["hello world"], fun _ => ⟨"", ""⟩,
   fun _ => true, fun _ => false, fun _ _ => .ok []⟩

/-- Discovery yields one paper but its PDF cannot be downloaded. -/
def envExtractFail : Env :=
  ⟨fun _ _ => .ok [paper1], fun _ => none, fun _ => ⟨"", ""⟩,
   fun _ => true, fun _ => true, fun _ _ => .ok []⟩

/-- The state a crawl of `envExtractFail` produces from `stEmpty`: the paper
is cached but nothing is stored. -/
def stC10 : KBState := ⟨[("p1", cacheEntry paper1)], []⟩

/-- The discovery call itself fails. -/
def envSearchFail : Env :=
  ⟨fun _ _ => .error (), fun _ => none, fun _ => ⟨"", ""⟩,
   fun _ => true, fun _ => true, fun _ _ => .ok []⟩

/-- Discovery succeeds with zero results. -/
def envNoPapers : Env :=
  ⟨fun _ _ => .ok [], fun _ => none, fun _ => ⟨"", ""⟩,
   fun _ => true, fun _ => true, fun _ _ => .ok []⟩

/-- The retrieval call against the store fails. -/
def envQueryFail : Env :=
  ⟨fun _ _ => .ok [], fun _ => none, fun _ => ⟨"", ""⟩,
   fun _ => true, fun _ => true, fun _ _ => .error ()⟩

/-- The retrieval call returns zero matches. -/
def envQueryEmpty : Env :=
  ⟨fun _ _ => .ok [], fun _ => none, fun _ => ⟨"", ""⟩,
   fun _ => true, fun _ => true, fun _ _ => .ok []⟩

/-- A raw store hit with every expected metadata field missing. -/
def hitNoMeta : RawHit := ⟨"txt", ⟨none, none, none, none, none⟩, 7⟩

/-- The retrieval call returns the single metadata-free hit. -/
def envQueryHit : Env :=
  ⟨fun _ _ => .ok [], fun _ => none, fun _ => ⟨"", ""⟩,
   fun _ => true, fun _ => true, fun _ _ => .ok [hitNoMeta]⟩

/-- A state whose cache holds `p1` (empty store). -/
def stCacheOnly : KBState := ⟨[("p1", ⟨"Tc", "Uc", "sc", none⟩)], []⟩

/-- A state whose store holds one entry for `p1` (empty cache). -/
def stStoreOnly : KBState :=
  ⟨[], [("p1_chunk_0",
    ⟨"txt", ⟨some "p1", some "Ts", some 1, some "Us", some "paper_content"⟩⟩)]⟩

/-! ## Theorems

### Windows -/

theorem windowsGo_nil (n : Nat) (f : Nat) : windowsGo n f ([] : List α) = [] := by
  cases f <;> rfl

theorem windowsGo_fuel_eq (n : Nat) :
    ∀ (f g : Nat) (xs : List α), xs.length ≤ f → xs.length ≤ g →
      windowsGo n f xs = windowsGo n g xs := by
  intro f
  induction f with
  | zero =>
    intro g xs hf _
    cases xs with
    | nil => rw [windowsGo_nil, windowsGo_nil]
    | cons x xs' => simp at hf
  | succ f ih =>
    intro g xs hf hg
    cases xs with
    | nil => rw [windowsGo_nil, windowsGo_nil]
    | cons x xs' =>
      cases g with
      | zero => simp at hg
      | succ g' =>
        show (x :: xs'.take (n - 1)) :: windowsGo n f (xs'.drop (n - 1)) =
          (x :: xs'.take (n - 1)) :: windowsGo n g' (xs'.drop (n - 1))
        have hd : (xs'.drop (n - 1)).length ≤ xs'.length := by
          simp [List.length_drop]
        simp only [List.length_cons] at hf hg
        rw [ih g' (xs'.drop (n - 1)) (by omega) (by omega)]

theorem windows_nil (n : Nat) : windows n ([] : List α) = [] := rfl

theorem windows_cons (n : Nat) (x : α) (xs : List α) :
    windows n (x :: xs) = (x :: xs.take (n - 1)) :: windows n (xs.drop (n - 1)) := by
  show (x :: xs.take (n - 1)) :: windowsGo n xs.length (xs.drop (n - 1)) = _
  rw [windowsGo_fuel_eq n xs.length (xs.drop (n - 1)).length (xs.drop (n - 1))
    (by simp [List.length_drop]) le_rfl]
  rfl

/-- Recursion principle following the windowing structure. -/
theorem windows_rec {motive : List α → Prop} (n : Nat)
    (h0 : motive ([] : List α))
    (hstep : ∀ x xs, motive (xs.drop (n - 1)) → motive (x :: xs)) :
    ∀ xs : List α, motive xs := by
  have key : ∀ (m : Nat) (xs : List α), xs.length ≤ m → motive xs := by
    intro m
    induction m with
    | zero =>
      intro xs h
      cases xs with
      | nil => exact h0
      | cons x xs' => simp at h
    | succ m ih =>
      intro xs h
      cases xs with
      | nil => exact h0
      | cons x xs' =>
        refine hstep x xs' (ih _ ?_)
        simp only [List.length_cons] at h
        have : (xs'.drop (n - 1)).length ≤ xs'.length := by simp [List.length_drop]
        omega
  exact fun xs => key xs.length xs le_rfl

/-- Concatenating the windows gives back the list: the windows are
consecutive and non-overlapping, and no element is lost or duplicated. -/
theorem join_windows (n : Nat) (xs : List α) : (windows n xs).flatten = xs := by
  induction xs using windows_rec n with
  | h0 => rw [windows_nil]; rfl
  | hstep x xs ih =>
    rw [windows_cons]
    simp only [List.flatten_cons, ih]
    simp [List.take_append_drop]

/-- No window is empty. -/
theorem windows_ne_nil {n : Nat} {xs : List α} :
    ∀ w ∈ windows n xs, w ≠ [] := by
  induction xs using windows_rec n with
  | h0 => rw [windows_nil]; simp
  | hstep x xs ih =>
    rw [windows_cons]
    rintro w hw
    rcases List.mem_cons.1 hw with rfl | hw
    · simp
    · exact ih w hw

/-- Every window has at most `n` elements (for positive `n`). -/
theorem windows_length_le {n : Nat} (hn : 1 ≤ n) {xs : List α} :
    ∀ w ∈ windows n xs, w.length ≤ n := by
  induction xs using windows_rec n with
  | h0 => rw [windows_nil]; simp
  | hstep x xs ih =>
    rw [windows_cons]
    rintro w hw
    rcases List.mem_cons.1 hw with rfl | hw
    · simp only [List.length_cons]
      have := List.length_take_le (n - 1) xs
      omega
    · exact ih w hw

/-- Elements of a window are elements of the original list. -/
theorem mem_of_mem_windows {n : Nat} {xs : List α} {w : List α}
    (hw : w ∈ windows n xs) {a : α} (ha : a ∈ w) : a ∈ xs := by
  rw [← join_windows n xs]
  exact List.mem_flatten.2 ⟨w, hw, ha⟩

/-! ### The word splitter -/

theorem splitWordsAux_nonws {c : Char} (cs acc : List Char) (h : ws c = false) :
    splitWordsAux (c :: cs) acc = splitWordsAux cs (c :: acc) := by
  simp [splitWordsAux, h]

theorem splitWordsAux_ws {c : Char} (cs acc : List Char) (h : ws c = true) :
    splitWordsAux (c :: cs) acc =
      if acc.isEmpty then splitWordsAux cs []
      else acc.reverse :: splitWordsAux cs [] := by
  simp [splitWordsAux, h]

/-- Every word produced by the splitter is non-empty and whitespace-free,
provided the accumulator is whitespace-free. -/
theorem splitWordsAux_sound (s : List Char) :
    ∀ acc, (∀ c ∈ acc, ws c = false) →
      ∀ w ∈ splitWordsAux s acc, w ≠ [] ∧ ∀ c ∈ w, ws c = false := by
  induction s with
  | nil =>
    intro acc hacc w hw
    simp only [splitWordsAux] at hw
    split at hw
    · simp at hw
    · next h =>
      simp only [List.mem_singleton] at hw
      subst hw
      refine ⟨by simpa [List.isEmpty_iff] using h, ?_⟩
      intro c hc
      exact hacc c (List.mem_reverse.1 hc)
  | cons c cs ih =>
    intro acc hacc w hw
    by_cases h : ws c
    · rw [splitWordsAux_ws cs acc h] at hw
      split at hw
      · exact ih [] (by simp) w hw
      · next hne =>
        rcases List.mem_cons.1 hw with rfl | hw
        · refine ⟨by simpa [List.isEmpty_iff] using hne, ?_⟩
          intro d hd
          exact hacc d (List.mem_reverse.1 hd)
        · exact ih [] (by simp) w hw
    · rw [splitWordsAux_nonws cs acc (by simpa using h)] at hw
      refine ih (c :: acc) ?_ w hw
      intro d hd
      rcases List.mem_cons.1 hd with rfl | hd
      · simpa using h
      · exact hacc d hd

theorem splitWords_ne_nil_mem {s : List Char} :
    ∀ w ∈ splitWords s, w ≠ [] :=
  fun w hw => (splitWordsAux_sound s [] (by simp) w hw).1

theorem splitWords_nonws_mem {s : List Char} :
    ∀ w ∈ splitWords s, ∀ c ∈ w, ws c = false :=
  fun w hw => (splitWordsAux_sound s [] (by simp) w hw).2

/-- The splitter never returns the empty list when the accumulator holds a
pending word. -/
theorem splitWordsAux_ne_nil (s : List Char) :
    ∀ acc, acc ≠ [] → splitWordsAux s acc ≠ [] := by
  induction s with
  | nil =>
    intro acc hacc
    simp [splitWordsAux, List.isEmpty_iff, hacc]
  | cons c cs ih =>
    intro acc hacc
    by_cases h : ws c
    · rw [splitWordsAux_ws cs acc h]
      simp [List.isEmpty_iff, hacc]
    · rw [splitWordsAux_nonws cs acc (by simpa using h)]
      exact ih (c :: acc) (by simp)

/-- A string splits into no words exactly when it is all whitespace. -/
theorem splitWords_eq_nil_iff {s : List Char} :
    splitWords s = [] ↔ ∀ c ∈ s, ws c = true := by
  unfold splitWords
  induction s with
  | nil => simp [splitWordsAux]
  | cons c cs ih =>
    by_cases h : ws c
    · rw [splitWordsAux_ws cs [] h]
      simpa [h] using ih
    · rw [splitWordsAux_nonws cs [] (by simpa using h)]
      constructor
      · intro habs
        exact absurd habs (splitWordsAux_ne_nil cs (c :: []) (by simp))
      · intro hall
        exact absurd (hall c (by simp)) (by simpa using h)

theorem joinWords_cons_cons (w w' : List Char) (rest : List (List Char)) :
    joinWords (w :: w' :: rest) = w ++ ' ' :: joinWords (w' :: rest) := rfl

/-- Reading a whitespace-free prefix just extends the pending word. -/
theorem splitWordsAux_append (w : List Char) (hw : ∀ c ∈ w, ws c = false) :
    ∀ s acc, splitWordsAux (w ++ s) acc = splitWordsAux s (w.reverse ++ acc) := by
  induction w with
  | nil => intro s acc; simp
  | cons c w' ih =>
    intro s acc
    rw [List.cons_append, splitWordsAux_nonws _ _ (hw c (by simp))]
    rw [ih (fun d hd => hw d (by simp [hd])) s (c :: acc)]
    simp

/-- Round trip: joining non-empty whitespace-free words with single spaces and
re-splitting recovers exactly the words (no token lost or duplicated). -/
theorem splitWords_joinWords (l : List (List Char))
    (hl : ∀ w ∈ l, w ≠ [] ∧ ∀ c ∈ w, ws c = false) :
    splitWords (joinWords l) = l := by
  induction l with
  | nil => simp [joinWords, splitWords, splitWordsAux]
  | cons w rest ih =>
    obtain ⟨hwne, hwf⟩ := hl w (by simp)
    cases rest with
    | nil =>
      show splitWordsAux (joinWords [w]) [] = [w]
      have : joinWords [w] = w ++ [] := by simp [joinWords]
      rw [this, splitWordsAux_append w hwf [] []]
      simp [splitWordsAux, List.isEmpty_iff, hwne]
    | cons w' rest' =>
      show splitWordsAux (joinWords (w :: w' :: rest')) [] = w :: w' :: rest'
      rw [joinWords_cons_cons, splitWordsAux_append w hwf _ []]
      rw [splitWordsAux_ws _ _ (by simp [ws])]
      have hrev : (w.reverse ++ []).isEmpty = false := by
        simp [List.isEmpty_iff, hwne]
      rw [hrev]
      simp only [Bool.false_eq_true, if_false, List.append_nil, List.reverse_reverse]
      exact congrArg (List.cons w) (ih (fun v hv => hl v (by simp [hv])))

/-- Stripping yields the empty string exactly when the string is all
whitespace. -/
theorem stripChars_eq_nil_iff {s : List Char} :
    stripChars s = [] ↔ ∀ c ∈ s, ws c = true := by
  unfold stripChars
  rw [List.reverse_eq_nil_iff, List.dropWhile_eq_nil_iff]
  constructor
  · intro h c hc
    by_cases hmem : c ∈ s.dropWhile ws
    · exact h c (List.mem_reverse.2 hmem)
    · have hs := List.takeWhile_append_dropWhile (p := ws) (l := s)
      rw [← hs] at hc
      rcases List.mem_append.1 hc with hc | hc
      · exact List.mem_takeWhile_imp hc
      · exact absurd hc hmem
  · intro h c hc
    exact h c ((List.dropWhile_sublist _).subset (List.mem_reverse.1 hc))

theorem stripChars_eq_nil_iff_splitWords {s : List Char} :
    stripChars s = [] ↔ splitWords s = [] := by
  rw [stripChars_eq_nil_iff, splitWords_eq_nil_iff]

/-! ### Strings and their characters -/

theorem string_data_mk (l : List Char) : (String.mk l).data = l := rfl

theorem string_mk_data (s : String) : String.mk s.data = s := rfl

theorem string_data_append (a b : String) : (a ++ b).data = a.data ++ b.data := rfl

theorem string_eq_iff_data {a b : String} : a = b ↔ a.data = b.data :=
  ⟨congrArg String.data, fun h => by cases a; cases b; exact congrArg String.mk h⟩

/-- Every token of `s.split()` is a non-empty whitespace-free string. -/
theorem pySplit_tokens {s : String} :
    ∀ t ∈ pySplit s, t.data ≠ [] ∧ ∀ c ∈ t.data, ws c = false := by
  intro t ht
  obtain ⟨w, hw, rfl⟩ := List.mem_map.1 ht
  rw [string_data_mk]
  exact ⟨splitWords_ne_nil_mem w hw, splitWords_nonws_mem w hw⟩

/-- String-level round trip: splitting `" ".join(l)` recovers `l` when every
element is a non-empty whitespace-free token. -/
theorem pySplit_pyJoin (l : List String)
    (hl : ∀ t ∈ l, t.data ≠ [] ∧ ∀ c ∈ t.data, ws c = false) :
    pySplit (pyJoin l) = l := by
  unfold pySplit pyJoin
  rw [string_data_mk,
    splitWords_joinWords (l.map String.data)
      (fun w hw => by
        obtain ⟨t, ht, rfl⟩ := List.mem_map.1 hw
        exact hl t ht)]
  rw [List.map_map]
  exact List.map_id'' (fun t => string_mk_data t) l

/-- The word count of a join of non-empty whitespace-free tokens is the
number of tokens. -/
theorem wordCount_pyJoin (l : List String)
    (hl : ∀ t ∈ l, t.data ≠ [] ∧ ∀ c ∈ t.data, ws c = false) :
    wordCount (pyJoin l) = l.length := by
  rw [wordCount, pySplit_pyJoin l hl]

/-- The strip guard fails exactly on strings with no words. -/
theorem truthy_pyStrip_eq_false_iff {s : String} :
    truthy (pyStrip s) = false ↔ pySplit s = [] := by
  unfold truthy pyStrip pySplit
  rw [string_data_mk]
  simp [List.isEmpty_iff, stripChars_eq_nil_iff_splitWords]

/-! ### Decimal rendering -/

theorem natCharsGo_eq (fuel : Nat) :
    ∀ n : Nat, n ≤ fuel → natCharsGo fuel n = (Nat.digits 10 n).map digitChar := by
  induction fuel with
  | zero =>
    intro n h
    interval_cases n
    simp [natCharsGo]
  | succ f ih =>
    intro n h
    cases n with
    | zero => simp [natCharsGo]
    | succ m =>
      show digitChar ((m + 1) % 10) :: natCharsGo f ((m + 1) / 10) = _
      rw [Nat.digits_def' (by norm_num : (1 : ℕ) < 10) (Nat.succ_pos m)]
      rw [List.map_cons]
      rw [ih ((m + 1) / 10) (by
        have := Nat.div_lt_self (Nat.succ_pos m) (by norm_num : (1 : ℕ) < 10)
        omega)]

theorem natChars_eq (n : Nat) :
    natChars n = if n = 0 then ['0'] else ((Nat.digits 10 n).map digitChar).reverse := by
  unfold natChars
  rw [natCharsGo_eq n n le_rfl]

theorem digitChar_inj {a b : Nat} (ha : a < 10) (hb : b < 10)
    (h : digitChar a = digitChar b) : a = b := by
  interval_cases a <;> interval_cases b <;> revert h <;> decide

theorem map_digitChar_inj :
    ∀ (l₁ l₂ : List Nat), (∀ d ∈ l₁, d < 10) → (∀ d ∈ l₂, d < 10) →
      l₁.map digitChar = l₂.map digitChar → l₁ = l₂ := by
  intro l₁
  induction l₁ with
  | nil =>
    intro l₂ _ _ h
    cases l₂ with
    | nil => rfl
    | cons d t => simp at h
  | cons d₁ t₁ ih =>
    intro l₂ h₁ h₂ h
    cases l₂ with
    | nil => simp at h
    | cons d₂ t₂ =>
      simp only [List.map_cons, List.cons.injEq] at h
      have hd := digitChar_inj (h₁ d₁ (by simp)) (h₂ d₂ (by simp)) h.1
      rw [hd, ih t₂ (fun d hd => h₁ d (by simp [hd])) (fun d hd => h₂ d (by simp [hd])) h.2]

/-- A positive number's digit characters never render as `"0"`. -/
theorem natChars_pos_ne_zero_chars {n : Nat} (hn : n ≠ 0) :
    ((Nat.digits 10 n).map digitChar).reverse ≠ ['0'] := by
  intro h
  have h' : (Nat.digits 10 n).map digitChar = ['0'] := by
    have := congrArg List.reverse h
    simpa using this
  have hne : Nat.digits 10 n ≠ [] := Nat.digits_ne_nil_iff_ne_zero.2 hn
  cases hd : Nat.digits 10 n with
  | nil => exact hne hd
  | cons d t =>
    rw [hd] at h'
    cases t with
    | nil =>
      simp only [List.map_cons, List.map_nil, List.cons.injEq] at h'
      have hdlt : d < 10 :=
        Nat.digits_lt_base (by norm_num) (by rw [hd]; simp)
      have hd0 : d = 0 := digitChar_inj hdlt (by norm_num) (by simpa using h'.1)
      refine hn ?_
      have hod := Nat.ofDigits_digits 10 n
      rw [hd, hd0] at hod
      simpa [Nat.ofDigits] using hod.symm
    | cons d' t' => simp at h'

theorem natChars_injective : Function.Injective natChars := by
  intro a b h
  rw [natChars_eq, natChars_eq] at h
  by_cases ha : a = 0 <;> by_cases hb : b = 0
  · rw [ha, hb]
  · rw [if_pos ha, if_neg hb] at h
    exact absurd h.symm (natChars_pos_ne_zero_chars hb)
  · rw [if_neg ha, if_pos hb] at h
    exact absurd h (natChars_pos_ne_zero_chars ha)
  · rw [if_neg ha, if_neg hb] at h
    have h' := congrArg List.reverse h
    simp only [List.reverse_reverse] at h'
    have hdig := map_digitChar_inj (Nat.digits 10 a) (Nat.digits 10 b)
      (fun d hd => Nat.digits_lt_base (by norm_num) hd)
      (fun d hd => Nat.digits_lt_base (by norm_num) hd) h'
    calc a = Nat.ofDigits 10 (Nat.digits 10 a) := (Nat.ofDigits_digits 10 a).symm
      _ = Nat.ofDigits 10 (Nat.digits 10 b) := by rw [hdig]
      _ = b := Nat.ofDigits_digits 10 b

theorem natStr_injective : Function.Injective natStr := by
  intro a b h
  exact natChars_injective (congrArg String.data h)

/-! ### The association-list store -/

theorem keys_nil : keys ([] : List (String × α)) = [] := rfl

theorem keys_cons (kv : String × α) (s : List (String × α)) :
    keys (kv :: s) = kv.1 :: keys s := rfl

theorem lookupKey_nil (k : String) : lookupKey k ([] : List (String × α)) = none := rfl

theorem lookupKey_cons (k : String) (kv : String × α) (s : List (String × α)) :
    lookupKey k (kv :: s) = if kv.1 = k then some kv.2 else lookupKey k s := rfl

theorem lookupKey_write_self (k : String) (v : α) (s : List (String × α)) :
    lookupKey k (write k v s) = some v := by
  induction s with
  | nil => simp [write, lookupKey]
  | cons kv rest ih =>
    by_cases h : kv.1 = k
    · simp [write, h, lookupKey]
    · simp [write, h, lookupKey, ih]

theorem lookupKey_write_ne {k k' : String} (h : k' ≠ k) (v : α)
    (s : List (String × α)) : lookupKey k' (write k v s) = lookupKey k' s := by
  have hne : k ≠ k' := Ne.symm h
  induction s with
  | nil => simp [write, lookupKey, hne]
  | cons kv rest ih =>
    by_cases hk : kv.1 = k
    · simp [write, hk, lookupKey, hne]
    · simp only [write, hk, if_false, lookupKey_cons, ih]

theorem lookupKey_eq_none_of_not_mem {k : String} {s : List (String × α)}
    (h : k ∉ keys s) : lookupKey k s = none := by
  induction s with
  | nil => rfl
  | cons kv rest ih =>
    rw [keys_cons, List.mem_cons] at h
    push_neg at h
    simp [lookupKey, Ne.symm h.1, ih h.2]

theorem keys_write_mem {k : String} {s : List (String × α)} (h : k ∈ keys s)
    (v : α) : keys (write k v s) = keys s := by
  induction s with
  | nil => simp [keys_nil] at h
  | cons kv rest ih =>
    by_cases hk : kv.1 = k
    · simp [write, hk, keys_cons]
    · rw [keys_cons, List.mem_cons] at h
      rcases h with h | h
      · exact absurd h.symm hk
      · show keys (if kv.1 = k then (k, v) :: rest else kv :: write k v rest) = _
        rw [if_neg hk, keys_cons, keys_cons, ih h]

theorem keys_write_not_mem {k : String} {s : List (String × α)} (h : k ∉ keys s)
    (v : α) : keys (write k v s) = keys s ++ [k] := by
  induction s with
  | nil => simp [write, keys]
  | cons kv rest ih =>
    rw [keys_cons, List.mem_cons] at h
    push_neg at h
    show keys (if kv.1 = k then (k, v) :: rest else kv :: write k v rest) = _
    rw [if_neg (fun e => h.1 e.symm), keys_cons, keys_cons, ih h.2, List.cons_append]

theorem mem_keys_write_self (k : String) (v : α) (s : List (String × α)) :
    k ∈ keys (write k v s) := by
  by_cases h : k ∈ keys s
  · rw [keys_write_mem h]; exact h
  · rw [keys_write_not_mem h]; simp

theorem mem_keys_write_of_mem {k' k : String} {s : List (String × α)}
    (h : k' ∈ keys s) (v : α) : k' ∈ keys (write k v s) := by
  by_cases hm : k ∈ keys s
  · rw [keys_write_mem hm]; exact h
  · rw [keys_write_not_mem hm]; simp [h]

theorem nodup_keys_write {k : String} {s : List (String × α)}
    (h : (keys s).Nodup) (v : α) : (keys (write k v s)).Nodup := by
  by_cases hm : k ∈ keys s
  · rw [keys_write_mem hm]; exact h
  · rw [keys_write_not_mem hm]
    simp [List.nodup_append, h, hm]

theorem applyWrites_nil (s : List (String × α)) : applyWrites [] s = s := rfl

theorem applyWrites_cons (kv : String × α) (l : List (String × α))
    (s : List (String × α)) :
    applyWrites (kv :: l) s = applyWrites l (write kv.1 kv.2 s) := rfl

theorem applyWrites_append (l₁ l₂ s : List (String × α)) :
    applyWrites (l₁ ++ l₂) s = applyWrites l₂ (applyWrites l₁ s) := by
  simp [applyWrites, List.foldl_append]

/-- A lookup after a batch of writes sees the last write for that key, or
falls through to the original store. -/
theorem lookupKey_applyWrites (l : List (String × α)) :
    ∀ (s : List (String × α)) (k : String),
      lookupKey k (applyWrites l s) =
        (lastWrite k l).orElse (fun _ => lookupKey k s) := by
  induction l with
  | nil => intro s k; simp [applyWrites_nil, lastWrite, Option.orElse]
  | cons kv rest ih =>
    intro s k
    rw [applyWrites_cons, ih]
    cases hlw : lastWrite k rest with
    | some v => simp [lastWrite, hlw, Option.orElse]
    | none =>
      simp only [lastWrite, hlw, Option.orElse]
      by_cases h : kv.1 = k
      · subst h; simp [lookupKey_write_self]
      · simp [h, lookupKey_write_ne (fun e => h e.symm)]

theorem mem_keys_applyWrites_of_mem (l : List (String × α)) :
    ∀ (s : List (String × α)) (k : String),
      k ∈ keys s → k ∈ keys (applyWrites l s) := by
  induction l with
  | nil => intro s k h; exact h
  | cons kv rest ih =>
    intro s k h
    rw [applyWrites_cons]
    exact ih _ k (mem_keys_write_of_mem h _)

theorem mem_keys_applyWrites_of_mem_writes (l : List (String × α)) :
    ∀ (s : List (String × α)) (k : String),
      k ∈ keys l → k ∈ keys (applyWrites l s) := by
  induction l with
  | nil => intro s k h; simp [keys_nil] at h
  | cons kv rest ih =>
    intro s k h
    rw [keys_cons, List.mem_cons] at h
    rw [applyWrites_cons]
    rcases h with rfl | h
    · exact mem_keys_applyWrites_of_mem rest _ _ (mem_keys_write_self _ _ _)
    · exact ih _ k h

theorem keys_applyWrites_eq (l : List (String × α)) :
    ∀ s : List (String × α), (∀ k ∈ keys l, k ∈ keys s) →
      keys (applyWrites l s) = keys s := by
  induction l with
  | nil => intro s _; rfl
  | cons kv rest ih =>
    intro s h
    rw [applyWrites_cons]
    have hk : kv.1 ∈ keys s := h kv.1 (by rw [keys_cons]; exact List.mem_cons_self _ _)
    rw [ih _ (fun k hk' => mem_keys_write_of_mem
      (h k (by rw [keys_cons]; exact List.mem_cons_of_mem _ hk')) _)]
    exact keys_write_mem hk _

theorem nodup_keys_applyWrites (l : List (String × α)) :
    ∀ s : List (String × α), (keys s).Nodup → (keys (applyWrites l s)).Nodup := by
  induction l with
  | nil => intro s h; exact h
  | cons kv rest ih =>
    intro s h
    rw [applyWrites_cons]
    exact ih _ (nodup_keys_write h _)

/-- Extensionality for duplicate-free association lists: same key sequence and
same lookups force equality. -/
theorem assoc_ext : ∀ (s t : List (String × α)), (keys s).Nodup →
    keys s = keys t → (∀ k, lookupKey k s = lookupKey k t) → s = t := by
  intro s
  induction s with
  | nil =>
    intro t _ hk _
    cases t with
    | nil => rfl
    | cons kv rest => simp [keys] at hk
  | cons kv rest ih =>
    intro t hnd hk hl
    cases t with
    | nil => simp [keys_nil, keys_cons] at hk
    | cons kv' rest' =>
      rw [keys_cons, keys_cons] at hk
      injection hk with hk1 hk2
      have hv : kv.2 = kv'.2 := by
        have h1 := hl kv.1
        rw [lookupKey_cons, lookupKey_cons, if_pos rfl, if_pos hk1.symm] at h1
        exact Option.some.inj h1
      rw [keys_cons] at hnd
      have hnd' : (keys rest).Nodup := hnd.of_cons
      have hnotmem : kv.1 ∉ keys rest := (List.nodup_cons.1 hnd).1
      have hnotmem' : kv.1 ∉ keys rest' := hk2 ▸ hnotmem
      have htail : rest = rest' := by
        refine ih rest' hnd' hk2 (fun k => ?_)
        by_cases hkk : k = kv.1
        · subst hkk
          rw [lookupKey_eq_none_of_not_mem hnotmem,
            lookupKey_eq_none_of_not_mem hnotmem']
        · have h2 := hl k
          rw [lookupKey_cons, lookupKey_cons, if_neg (fun e => hkk e.symm),
            if_neg (fun e => hkk (hk1 ▸ e.symm))] at h2
          exact h2
      have hhead : kv = kv' := Prod.ext hk1 hv
      rw [hhead, htail]

/-- Replaying the same batch of writes on the store it produced changes
nothing: every key it writes is already present with its final value. -/
theorem applyWrites_idem (l : List (String × α)) (s : List (String × α))
    (hnd : (keys s).Nodup) :
    applyWrites l (applyWrites l s) = applyWrites l s := by
  refine assoc_ext _ _ ?_ ?_ ?_
  · exact nodup_keys_applyWrites l _ (nodup_keys_applyWrites l s hnd)
  · exact keys_applyWrites_eq l _ (fun k hk => mem_keys_applyWrites_of_mem_writes l s k hk)
  · intro k
    simp only [lookupKey_applyWrites]
    cases lastWrite k l <;> simp [Option.orElse]

/-! ### The chunker -/

theorem filterMap_eq_map_of_forall {f : α → Option β} {g : α → β} :
    ∀ l : List α, (∀ a ∈ l, f a = some (g a)) → l.filterMap f = l.map g := by
  intro l
  induction l with
  | nil => intro _; rfl
  | cons a t ih =>
    intro h
    rw [List.filterMap_cons, h a (by simp), List.map_cons,
      ih (fun b hb => h b (by simp [hb]))]

theorem enum_map_fst_comp {l : List α} (g : Nat → β) :
    (l.enum.map fun ic => g ic.1) = (List.range l.length).map g := by
  rw [show (fun ic : Nat × α => g ic.1) = g ∘ Prod.fst from rfl, ← List.map_map,
    List.enum_map_fst]

theorem enum_map_snd_comp {l : List α} (g : α → β) :
    (l.enum.map fun ic => g ic.2) = l.map g := by
  rw [show (fun ic : Nat × α => g ic.2) = g ∘ Prod.snd from rfl, ← List.map_map,
    List.enum_map_snd]

/-- A window of the word list always passes the `if chunk_text.strip():`
guard: its join contains a non-whitespace character. -/
theorem truthy_pyStrip_pyJoin_window {n : Nat} {s : String} {w : List String}
    (hw : w ∈ windows n (pySplit s)) : truthy (pyStrip (pyJoin w)) = true := by
  cases h : truthy (pyStrip (pyJoin w)) with
  | true => rfl
  | false =>
    have hrt : pySplit (pyJoin w) = w :=
      pySplit_pyJoin w (fun t ht => pySplit_tokens t (mem_of_mem_windows hw ht))
    have : w = [] := by
      rw [← hrt]
      exact truthy_pyStrip_eq_false_iff.1 h
    exact absurd this (windows_ne_nil w hw)

/-- The chunker, closed form: split into words, window, join, tag — neither
guard ever drops a non-empty window. -/
theorem chunkPage_eq (text : String) (page n : Nat) :
    chunkPage text page n =
      (windows n (pySplit text)).map fun w => ⟨pyJoin w, page⟩ := by
  unfold chunkPage
  by_cases hg : truthy (pyStrip text) = true
  · rw [if_pos hg]
    refine filterMap_eq_map_of_forall _ (fun w hw => ?_)
    show (if truthy (pyStrip (pyJoin w)) = true then some (⟨pyJoin w, page⟩ : Chunk)
      else none) = _
    rw [if_pos (truthy_pyStrip_pyJoin_window hw)]
  · rw [if_neg hg]
    have hsplit : pySplit text = [] :=
      truthy_pyStrip_eq_false_iff.1 (by simpa using hg)
    rw [hsplit, windows_nil, List.map_nil]

theorem wordCount_window {n : Nat} {s : String} {w : List String}
    (hw : w ∈ windows n (pySplit s)) : wordCount (pyJoin w) = w.length :=
  wordCount_pyJoin w (fun t ht => pySplit_tokens t (mem_of_mem_windows hw ht))

/-- No token is lost or duplicated: the word counts of the emitted chunks sum
to the word count of the page. -/
theorem chunkPage_wordCount_sum (text : String) (page n : Nat) :
    ((chunkPage text page n).map fun c => wordCount c.text).sum = wordCount text := by
  rw [chunkPage_eq, List.map_map]
  have h1 : ((windows n (pySplit text)).map
      ((fun c : Chunk => wordCount c.text) ∘ fun w => ⟨pyJoin w, page⟩)) =
      (windows n (pySplit text)).map List.length :=
    List.map_congr_left (fun w hw => wordCount_window hw)
  rw [h1]
  have h2 := congrArg List.length (join_windows n (pySplit text))
  rw [List.length_flatten] at h2
  exact h2

/-- Every emitted chunk carries the page number and at most `n` words. -/
theorem chunkPage_mem_spec {n : Nat} (hn : 1 ≤ n) (text : String) (page : Nat) :
    ∀ c ∈ chunkPage text page n, c.page_number = page ∧ wordCount c.text ≤ n := by
  intro c hc
  rw [chunkPage_eq] at hc
  obtain ⟨w, hw, rfl⟩ := List.mem_map.1 hc
  refine ⟨rfl, ?_⟩
  show wordCount (pyJoin w) ≤ n
  rw [wordCount_window hw]
  exact windows_length_le hn w hw

/-- Empty or whitespace-only input emits nothing. -/
theorem chunkPage_all_ws {text : String} (page n : Nat)
    (h : ∀ c ∈ text.data, ws c = true) : chunkPage text page n = [] := by
  rw [chunkPage_eq]
  have hsplit : pySplit text = [] := by
    unfold pySplit
    rw [splitWords_eq_nil_iff.2 h]
    rfl
  rw [hsplit, windows_nil, List.map_nil]

/-! ### The GitHub batches -/

/-- The README batch, closed form: window the README's words at 500, join,
and id each window by its 0-based index. -/
theorem readmeBatch_eq (p : Paper) (repo readme : String) :
    readmeBatch p repo readme =
      (windows 500 (pySplit readme)).enum.map fun iw =>
        (p.paper_id ++ "_github_readme_" ++ natStr iw.1,
         ⟨pyJoin iw.2,
          { source_id := some p.paper_id,
            title := some (p.title ++ " - GitHub README"), page := some 0,
            url := some repo, type_ := some "implementation_details" }⟩) := by
  unfold readmeBatch
  by_cases hr : truthy readme = true
  · rw [if_pos hr]
    refine filterMap_eq_map_of_forall _ (fun iw hiw => ?_)
    have hw : iw.2 ∈ windows 500 (pySplit readme) := by
      rw [← List.enum_map_snd (windows 500 (pySplit readme))]
      exact List.mem_map_of_mem Prod.snd hiw
    show (if truthy (pyStrip (pyJoin iw.2)) = true then _ else none) = _
    rw [if_pos (truthy_pyStrip_pyJoin_window hw)]
  · rw [if_neg hr]
    have hdata : readme.data = [] := by
      have hf : truthy readme = false := by simpa using hr
      unfold truthy at hf
      simpa [List.isEmpty_iff] using hf
    have hsplit : pySplit readme = [] := by
      unfold pySplit
      rw [hdata]
      rfl
    rw [hsplit, windows_nil]
    rfl

/-- The texts stored for a README are exactly what the page chunker at
`max_words = 500` would produce on it. -/
theorem readmeBatch_texts (p : Paper) (repo readme : String) :
    (readmeBatch p repo readme).map (fun e => e.2.text) =
      (chunkPage readme 0 500).map Chunk.text := by
  rw [readmeBatch_eq, chunkPage_eq, List.map_map, List.map_map]
  exact enum_map_snd_comp (fun w => pyJoin w)

/-- The README chunk ids are the 0-based indices of its windows. -/
theorem readmeBatch_ids (p : Paper) (repo readme : String) :
    (readmeBatch p repo readme).map Prod.fst =
      (List.range (windows 500 (pySplit readme)).length).map
        (fun j => p.paper_id ++ "_github_readme_" ++ natStr j) := by
  rw [readmeBatch_eq, List.map_map]
  exact enum_map_fst_comp (fun j => p.paper_id ++ "_github_readme_" ++ natStr j)

/-- The primary chunk ids are the 0-based chunk indices. -/
theorem primaryBatch_ids (p : Paper) (chunks : List Chunk) :
    (primaryBatch p chunks).map Prod.fst =
      (List.range chunks.length).map
        (fun i => p.paper_id ++ "_chunk_" ++ natStr i) := by
  unfold primaryBatch
  rw [List.map_map]
  exact enum_map_fst_comp (fun i => p.paper_id ++ "_chunk_" ++ natStr i)

/-! ### The crawl, characterised by its environment -/

theorem foldl_write_eq_applyWrites (f : β → String × α) :
    ∀ (l : List β) (c : List (String × α)),
      l.foldl (fun c b => write (f b).1 (f b).2 c) c = applyWrites (l.map f) c := by
  intro l
  induction l with
  | nil => intro c; rfl
  | cons b rest ih =>
    intro c
    rw [List.foldl_cons, List.map_cons, applyWrites_cons, ih]

theorem search_arxiv_eq (env : Env) (st : KBState) (topic : String) (maxp : Nat) :
    search_arxiv env st topic maxp =
      (papersOf env topic maxp,
       { st with paper_metadata :=
           applyWrites (cacheWritesOf env topic maxp) st.paper_metadata }) := by
  have hpo : ∀ ps, env.search topic maxp = .ok ps → papersOf env topic maxp = ps := by
    intro ps h
    unfold papersOf
    rw [h]
  have hpe : ∀ e, env.search topic maxp = .error e → papersOf env topic maxp = [] := by
    intro e h
    unfold papersOf
    rw [h]
  cases henv : env.search topic maxp with
  | error e =>
    unfold cacheWritesOf
    rw [hpe e henv]
    unfold search_arxiv
    rw [henv]
    simp [applyWrites_nil]
  | ok papers =>
    unfold cacheWritesOf
    rw [hpo papers henv]
    unfold search_arxiv
    rw [henv]
    simp only []
    rw [foldl_write_eq_applyWrites (fun p => (p.paper_id, cacheEntry p)) papers]

/-- One loop iteration, closed form: an `encode` failure raises; otherwise the
paper contributes its successful batches to the count and the store, and the
cache is untouched. -/
theorem processPaper_eq (env : Env) (total : Nat) (st : KBState) (p : Paper) :
    processPaper env (total, st) p =
      if paperEmbedOk env p then
        .ok (total + paperCount env p,
             { st with store := applyWrites (paperWrites env p) st.store })
      else .error .embeddingError := by
  unfold processPaper paperWrites paperCount paperEmbedOk ghBatchOf
  by_cases h1 : (read_paper env p.pdf_url 500).isEmpty <;>
  by_cases h2 : env.embedOk
    ((primaryBatch p (read_paper env p.pdf_url 500)).map fun e => e.2.text) <;>
  by_cases h3 : env.upsertOk
    ((primaryBatch p (read_paper env p.pdf_url 500)).map Prod.fst) <;>
  by_cases h4 : truthyOpt p.repo_url <;>
  by_cases h5 : (githubBatch p (p.repo_url.getD "")
    (env.github (p.repo_url.getD ""))).isEmpty <;>
  by_cases h6 : env.embedOk ((githubBatch p (p.repo_url.getD "")
    (env.github (p.repo_url.getD ""))).map fun e => e.2.text) <;>
  by_cases h7 : env.upsertOk ((githubBatch p (p.repo_url.getD "")
    (env.github (p.repo_url.getD ""))).map Prod.fst) <;>
  simp [h1, h2, h3, h4, h5, h6, h7, applyWrites_append, applyWrites_nil,
    List.length_map, Nat.add_assoc]

/-- The paper loop, closed form. -/
theorem foldlM_processPaper (env : Env) :
    ∀ (ps : List Paper) (total : Nat) (st : KBState),
      ps.foldlM (processPaper env) (total, st) =
        if ps.all (paperEmbedOk env) then
          .ok (total + (ps.map (paperCount env)).sum,
               { st with store :=
                  applyWrites ((ps.map (paperWrites env)).flatten) st.store })
        else .error .embeddingError := by
  intro ps
  induction ps with
  | nil => intro total st; rfl
  | cons p rest ih =>
    intro total st
    rw [List.foldlM_cons, processPaper_eq]
    by_cases hp : paperEmbedOk env p = true
    · rw [if_pos hp]
      show rest.foldlM (processPaper env) _ = _
      rw [ih]
      by_cases hall : rest.all (paperEmbedOk env) = true
      · rw [if_pos hall, if_pos (by simp [hp, hall])]
        simp [applyWrites_append, Nat.add_assoc]
      · rw [if_neg hall, if_neg (by simp [hall])]
    · rw [if_neg hp]
      rw [if_neg (by simp [hp])]
      rfl

/-- The whole crawl, closed form: it raises exactly when some paper's
`encode` fails; otherwise it returns the environment-determined count, the
cache extended by the discovered papers' metadata, and the store extended by
the successful batches' writes. -/
theorem crawl_eq (env : Env) (st : KBState) (topic : String) (maxp : Nat) :
    crawl_physics_knowledge env st topic maxp =
      if crawlOk env topic maxp then
        .ok (crawlCount env topic maxp,
             { paper_metadata :=
                 applyWrites (cacheWritesOf env topic maxp) st.paper_metadata,
               store := applyWrites (storeWritesOf env topic maxp) st.store })
      else .error .embeddingError := by
  unfold crawl_physics_knowledge crawlOk crawlCount storeWritesOf
  rw [search_arxiv_eq]
  by_cases hemp : (papersOf env topic maxp).isEmpty
  · have hnil : papersOf env topic maxp = [] := by simpa [List.isEmpty_iff] using hemp
    simp [hnil, cacheWritesOf, applyWrites_nil]
  · have hne : (papersOf env topic maxp).isEmpty = false := by
      simpa using hemp
    simp only [hne, Bool.false_eq_true, if_false]
    rw [foldlM_processPaper]
    simp [Nat.zero_add]

/-! ### Distinctness of generated chunk ids -/

theorem chunk_id_inj (pid : String) {i j : Nat}
    (h : pid ++ "_chunk_" ++ natStr i = pid ++ "_chunk_" ++ natStr j) : i = j := by
  rw [string_eq_iff_data, string_data_append, string_data_append,
    string_data_append, string_data_append, List.append_assoc, List.append_assoc] at h
  exact natChars_injective (List.append_cancel_left (List.append_cancel_left h))

theorem readme_id_inj (pid : String) {i j : Nat}
    (h : pid ++ "_github_readme_" ++ natStr i = pid ++ "_github_readme_" ++ natStr j) :
    i = j := by
  rw [string_eq_iff_data, string_data_append, string_data_append,
    string_data_append, string_data_append, List.append_assoc, List.append_assoc] at h
  exact natChars_injective (List.append_cancel_left (List.append_cancel_left h))

theorem chunk_id_ne_readme_id (pid : String) (i j : Nat) :
    pid ++ "_chunk_" ++ natStr i ≠ pid ++ "_github_readme_" ++ natStr j := by
  intro h
  rw [string_eq_iff_data, string_data_append, string_data_append,
    string_data_append, string_data_append, List.append_assoc, List.append_assoc] at h
  have h2 := List.append_cancel_left h
  have e1 : "_chunk_".data = '_' :: 'c' :: "hunk_".data := rfl
  have e2 : "_github_readme_".data = '_' :: 'g' :: "ithub_readme_".data := rfl
  rw [e1, e2, List.cons_append, List.cons_append, List.cons_append,
    List.cons_append] at h2
  injection h2 with _ h3
  injection h3 with h4 _
  exact absurd h4 (by decide)

theorem chunk_id_ne_requirements_id (pid : String) (i : Nat) :
    pid ++ "_chunk_" ++ natStr i ≠ pid ++ "_github_requirements" := by
  intro h
  rw [string_eq_iff_data, string_data_append, string_data_append,
    string_data_append, List.append_assoc] at h
  have h2 := List.append_cancel_left h
  have e1 : "_chunk_".data = '_' :: 'c' :: "hunk_".data := rfl
  have e2 : "_github_requirements".data = '_' :: 'g' :: "ithub_requirements".data := rfl
  rw [e1, e2, List.cons_append, List.cons_append] at h2
  injection h2 with _ h3
  injection h3 with h4 _
  exact absurd h4 (by decide)

theorem readme_id_ne_requirements_id (pid : String) (j : Nat) :
    pid ++ "_github_readme_" ++ natStr j ≠ pid ++ "_github_requirements" := by
  intro h
  rw [string_eq_iff_data, string_data_append, string_data_append,
    string_data_append, List.append_assoc] at h
  have h2 := List.append_cancel_left h
  have e1 : "_github_readme_".data =
      '_' :: 'g' :: 'i' :: 't' :: 'h' :: 'u' :: 'b' :: '_' :: 'r' :: 'e' :: 'a' :: "dme_".data := rfl
  have e2 : "_github_requirements".data =
      '_' :: 'g' :: 'i' :: 't' :: 'h' :: 'u' :: 'b' :: '_' :: 'r' :: 'e' :: 'q' :: "uirements".data := rfl
  rw [e1, e2] at h2
  simp only [List.cons_append] at h2
  injection h2 with _ h3
  injection h3 with _ h3
  injection h3 with _ h3
  injection h3 with _ h3
  injection h3 with _ h3
  injection h3 with _ h3
  injection h3 with _ h3
  injection h3 with _ h3
  injection h3 with _ h3
  injection h3 with _ h3
  injection h3 with h4 _
  exact absurd h4 (by decide)

/-! ### Last-write lookups in the cache -/

theorem lastWrite_eq_none_of_not_mem {k : String} {l : List (String × α)}
    (h : k ∉ keys l) : lastWrite k l = none := by
  induction l with
  | nil => rfl
  | cons kv rest ih =>
    rw [keys_cons, List.mem_cons] at h
    push_neg at h
    show (lastWrite k rest).orElse _ = none
    rw [ih h.2]
    simp [Option.orElse, Ne.symm h.1]

/-- With duplicate-free discovery ids, the cache write a paper receives is its
own metadata. -/
theorem lastWrite_cacheWrites {ps : List Paper} {p : Paper}
    (hnd : (ps.map Paper.paper_id).Nodup) (hp : p ∈ ps) :
    lastWrite p.paper_id (ps.map fun q => (q.paper_id, cacheEntry q)) =
      some (cacheEntry p) := by
  induction ps with
  | nil => cases hp
  | cons q rest ih =>
    rw [List.map_cons] at hnd ⊢
    rcases List.mem_cons.1 hp with rfl | hp'
    · have hnotin : p.paper_id ∉ rest.map Paper.paper_id :=
        (List.nodup_cons.1 hnd).1
      have hnone : lastWrite p.paper_id
          (rest.map fun q => (q.paper_id, cacheEntry q)) = none := by
        apply lastWrite_eq_none_of_not_mem
        intro hmem
        apply hnotin
        have : keys (rest.map fun q => (q.paper_id, cacheEntry q)) =
            rest.map Paper.paper_id := by
          unfold keys
          rw [List.map_map]
          rfl
        rw [this] at hmem
        exact hmem
      show (lastWrite p.paper_id _).orElse _ = _
      rw [hnone]
      simp [Option.orElse]
    · have htail := ih (List.nodup_cons.1 hnd).2 hp'
      show (lastWrite p.paper_id _).orElse _ = _
      rw [htail]
      simp [Option.orElse]

/-! ### Claim theorems -/

/-- C9: within a single ingestion of one document, every generated chunk
identifier — primary `"{source_id}_chunk_{i}"`, README
`"{source_id}_github_readme_{j}"`, and the requirements id
`"{source_id}_github_requirements"` — is pairwise distinct from the others,
so no upsert batch of that run overwrites another entry written in the same
run for that document. -/
theorem doc_ids_pairwise_distinct (env : Env) (p : Paper) : (docIds env p).Nodup := by
  unfold docIds
  by_cases h1 : (read_paper env p.pdf_url 500).isEmpty
  · simp [h1]
  · rw [if_neg h1, List.nodup_append]
    refine ⟨?_, ?_, ?_⟩
    · rw [primaryBatch_ids]
      exact (List.nodup_range _).map (fun a b h => chunk_id_inj p.paper_id h)
    · unfold ghBatchOf
      by_cases h4 : truthyOpt p.repo_url
      · rw [if_pos h4]
        unfold githubBatch
        rw [List.map_append, List.nodup_append]
        refine ⟨?_, ?_, ?_⟩
        · rw [readmeBatch_ids]
          exact (List.nodup_range _).map (fun a b h => readme_id_inj p.paper_id h)
        · unfold requirementsBatch
          split <;> simp
        · intro x hx hx'
          rw [readmeBatch_ids] at hx
          obtain ⟨j, _, rfl⟩ := List.mem_map.1 hx
          unfold requirementsBatch at hx'
          revert hx'
          split
          · intro hx'
            simp only [List.map_cons, List.map_nil, List.mem_singleton] at hx'
            exact readme_id_ne_requirements_id p.paper_id j hx'
          · intro hx'
            simp at hx'
      · rw [if_neg h4]
        simp
    · intro x hx hx'
      rw [primaryBatch_ids] at hx
      obtain ⟨i, _, rfl⟩ := List.mem_map.1 hx
      unfold ghBatchOf at hx'
      revert hx'
      by_cases h4 : truthyOpt p.repo_url
      · rw [if_pos h4]
        unfold githubBatch
        rw [List.map_append]
        intro hx'
        rcases List.mem_append.1 hx' with hr | hq
        · rw [readmeBatch_ids] at hr
          obtain ⟨j, _, he⟩ := List.mem_map.1 hr
          exact chunk_id_ne_readme_id p.paper_id i j he.symm
        · unfold requirementsBatch at hq
          revert hq
          split
          · intro hq
            simp only [List.map_cons, List.map_nil, List.mem_singleton] at hq
            exact chunk_id_ne_requirements_id p.paper_id i hq
          · intro hq
            simp at hq
      · rw [if_neg h4]
        intro hx'
        simp at hx'

set_option maxRecDepth 10000 in
/-- C4: on any `page_text`, `page_number` and `max_words ≥ 1` the chunker (a)
splits the text on whitespace, windows the tokens and rejoins each window
with single spaces, tagging every chunk with the page number, (b) produces
consecutive non-overlapping windows whose concatenation is the token list,
(c) emits only chunks of at most `max_words` words carrying the page number,
(d) emits nothing on empty or whitespace-only input, (e) loses or duplicates
no token — the chunk word counts sum to `len(page_text.split())` — and (f) on
a 1200-word page with `max_words = 500` yields exactly three chunks of 500,
500 and 200 words tagged with the same page number.  (It is a pure function
of its arguments, so determinism holds by construction.) -/
theorem chunker_spec (text : String) (page n : Nat) (hn : 1 ≤ n) :
    chunkPage text page n =
      ((windows n (pySplit text)).map fun w => ⟨pyJoin w, page⟩) ∧
    (windows n (pySplit text)).flatten = pySplit text ∧
    (∀ c ∈ chunkPage text page n, c.page_number = page ∧ wordCount c.text ≤ n) ∧
    ((∀ c ∈ text.data, ws c = true) → chunkPage text page n = []) ∧
    ((chunkPage text page n).map fun c => wordCount c.text).sum = wordCount text ∧
    ((chunkPage scenarioPage 7 500).map fun c => (wordCount c.text, c.page_number)) =
      [(500, 7), (500, 7), (200, 7)] :=
  ⟨chunkPage_eq text page n, join_windows n (pySplit text),
   chunkPage_mem_spec hn text page, chunkPage_all_ws page n,
   chunkPage_wordCount_sum text page n, by decide⟩

/-- Witness for C4 at `max_words = 500` on the 1200-word scenario page. -/
theorem chunker_spec_witness :
    1 ≤ 500 ∧
    ((chunkPage scenarioPage 7 500).map fun c => (wordCount c.text, c.page_number)) =
      [(500, 7), (500, 7), (200, 7)] :=
  ⟨by decide, (chunker_spec scenarioPage 7 500 (by decide)).2.2.2.2.2⟩

/-- C1 (amended): when the embedding model never fails, `crawl` returns
normally; a batch whose upsert fails contributes neither entries nor count
(a paper whose upserts all fail contributes zero), and processing continues
through every discovered paper — the returned total is the sum of per-paper
contributions.  (The original claim fails on the code: an `encode` failure
is not caught and escapes, see the counterexample.) -/
theorem crawl_upsert_failure_isolated (env : Env) (st : KBState) (topic : String)
    (maxp : Nat) (hemb : ∀ docs, env.embedOk docs = true) :
    crawl_physics_knowledge env st topic maxp =
      .ok (((papersOf env topic maxp).map (paperCount env)).sum,
           { paper_metadata :=
               applyWrites (cacheWritesOf env topic maxp) st.paper_metadata,
             store := applyWrites (storeWritesOf env topic maxp) st.store }) ∧
    ∀ p ∈ papersOf env topic maxp,
      env.upsertOk ((primaryBatch p (read_paper env p.pdf_url 500)).map Prod.fst) = false →
      env.upsertOk ((ghBatchOf env p).map Prod.fst) = false →
      paperCount env p = 0 ∧ paperWrites env p = [] := by
  constructor
  · rw [crawl_eq]
    have hok : crawlOk env topic maxp = true := by
      unfold crawlOk
      rw [List.all_eq_true]
      intro p _
      unfold paperEmbedOk
      simp [hemb]
    rw [if_pos hok]
    rfl
  · intro p _ hprim hgh
    unfold paperCount paperWrites
    by_cases h1 : (read_paper env p.pdf_url 500).isEmpty
    · simp [h1]
    · simp [h1, hprim, hgh]

/-- Counterexample to C1 as stated: an embedding failure escapes
`crawl_physics_knowledge` as an exception instead of being downgraded to a
skipped batch. -/
theorem crawl_embed_failure_escapes :
    crawl_physics_knowledge envEmbedFail stEmpty "quantum" 5 =
      .error .embeddingError := rfl

/-- Witness for C1 (amended): with every upsert failing, the crawl still
returns normally, counts nothing, and stores nothing. -/
theorem crawl_upsert_failure_isolated_witness :
    (∀ docs, envUpsertFail.embedOk docs = true) ∧
    crawl_physics_knowledge envUpsertFail stEmpty "quantum" 5 =
      .ok (0, ⟨[("p1", cacheEntry paper1)], []⟩) :=
  ⟨fun _ => rfl,
   (crawl_upsert_failure_isolated envUpsertFail stEmpty "quantum" 5 (fun _ => rfl)).1⟩

/-- C2 (amended): the README artifact is chunked like a page at
`max_words = 500` with ids `"{source_id}_github_readme_{index}"`, index
0-based; the dependency manifest is NOT chunked: when non-empty it yields
exactly one entry whose text is `"Dependencies and requirements: "` followed
by the raw manifest, under the fixed, index-free id
`"{source_id}_github_requirements"`. -/
theorem github_artifact_batches (p : Paper) (repo : String) (ctx : GithubContext) :
    ((readmeBatch p repo ctx.readme).map (fun e => e.2.text) =
       (chunkPage ctx.readme 0 500).map Chunk.text) ∧
    ((readmeBatch p repo ctx.readme).map Prod.fst =
       (List.range (windows 500 (pySplit ctx.readme)).length).map
         (fun j => p.paper_id ++ "_github_readme_" ++ natStr j)) ∧
    (truthy ctx.requirements = true →
       requirementsBatch p repo ctx.requirements =
         [(p.paper_id ++ "_github_requirements",
           ⟨"Dependencies and requirements: " ++ ctx.requirements,
            { source_id := some p.paper_id,
              title := some (p.title ++ " - Dependencies"), page := some 0,
              url := some repo, type_ := some "implementation_details" }⟩)]) ∧
    (truthy ctx.requirements = false →
       requirementsBatch p repo ctx.requirements = []) := by
  refine ⟨readmeBatch_texts p repo ctx.readme, readmeBatch_ids p repo ctx.readme, ?_, ?_⟩
  · intro h
    unfold requirementsBatch
    rw [if_pos h]
  · intro h
    unfold requirementsBatch
    rw [if_neg (by simp [h])]

/-- Counterexample to C2 as stated: a non-empty manifest becomes one entry
whose id carries no 0-based index and whose text is not a chunk of the
artifact text. -/
theorem requirements_not_chunked_cex :
    (requirementsBatch paper1 "r" "torch").map Prod.fst = ["p1_github_requirements"] ∧
    (requirementsBatch paper1 "r" "torch").map (fun e => e.2.text) =
      ["Dependencies and requirements: torch"] ∧
    ("p1_github_requirements" : String) ≠ "p1" ++ "_github_requirements_" ++ natStr 0 ∧
    ("Dependencies and requirements: torch" : String) ≠ "torch" :=
  ⟨rfl, rfl, by decide, by decide⟩

/-- Witness for C2 (amended) on a concrete one-word manifest. -/
theorem github_artifact_batches_witness :
    truthy "torch" = true ∧
    requirementsBatch paper1 "r" "torch" =
      [("p1_github_requirements",
        ⟨"Dependencies and requirements: torch",
         { source_id := some "p1", title := some "T1 - Dependencies",
           page := some 0, url := some "r",
           type_ := some "implementation_details" }⟩)] :=
  ⟨rfl, (github_artifact_batches paper1 "r" ⟨"", "torch"⟩).2.2.1 rfl⟩

/-- C3 (amended): a raw hit with missing metadata fields does not fail the
query — every hit is mapped — and the defaults are `"Unknown"` for
`source_id` and `title`, `0` for `page`, and `""` (not `"Unknown"`) for
`url`. -/
theorem query_missing_metadata_defaults (env : Env) (q : String) (k : Nat)
    (hits : List RawHit) (h : RawHit)
    (hrun : env.query q k = .ok hits) (hmem : h ∈ hits)
    (hs : h.meta.source_id = none) (ht : h.meta.title = none)
    (hp : h.meta.page = none) (hu : h.meta.url = none) :
    (query_physics_db env q k).length = hits.length ∧
    (⟨h.doc, "Unknown", "Unknown", 0, "", h.dist⟩ : QueryResult) ∈
      query_physics_db env q k := by
  unfold query_physics_db
  rw [hrun]
  refine ⟨by simp, ?_⟩
  have heq : ({ text := h.doc, source_id := h.meta.source_id.getD "Unknown",
                title := h.meta.title.getD "Unknown", page := h.meta.page.getD 0,
                url := h.meta.url.getD "", distance := h.dist } : QueryResult) =
      ⟨h.doc, "Unknown", "Unknown", 0, "", h.dist⟩ := by
    rw [hs, ht, hp, hu]
    rfl
  rw [← heq]
  exact List.mem_map_of_mem _ hmem

/-- Counterexample to C3 as stated: on a hit with no `url` key the result's
`url` is the empty string, not the sentinel `"Unknown"`. -/
theorem query_missing_url_not_unknown_cex :
    (query_physics_db envQueryHit "q" 1).map (fun r => r.url) = [""] ∧
    ("" : String) ≠ "Unknown" :=
  ⟨rfl, by decide⟩

/-- Witness for C3 (amended) on the metadata-free hit. -/
theorem query_missing_metadata_defaults_witness :
    envQueryHit.query "q" 1 = .ok [hitNoMeta] ∧ hitNoMeta ∈ [hitNoMeta] ∧
    hitNoMeta.meta.source_id = none ∧ hitNoMeta.meta.title = none ∧
    hitNoMeta.meta.page = none ∧ hitNoMeta.meta.url = none ∧
    (query_physics_db envQueryHit "q" 1).length = 1 ∧
    (⟨"txt", "Unknown", "Unknown", 0, "", 7⟩ : QueryResult) ∈
      query_physics_db envQueryHit "q" 1 := by
  refine ⟨rfl, by simp, rfl, rfl, rfl, rfl, ?_, ?_⟩
  · exact (query_missing_metadata_defaults envQueryHit "q" 1 [hitNoMeta] hitNoMeta
      rfl (by simp) rfl rfl rfl rfl).1
  · exact (query_missing_metadata_defaults envQueryHit "q" 1 [hitNoMeta] hitNoMeta
      rfl (by simp) rfl rfl rfl rfl).2

/-- C5: re-running the crawl against the same environment (same discovery,
extraction, embedding and upsert outcomes) from the state the first run
produced returns the same count and leaves the state exactly unchanged — in
particular the collection's `count()` and its per-`source_id` contents are
stable, because the regenerated chunk ids coincide and upsert overwrites.
The duplicate-free-keys hypotheses are the store/dict invariant of ChromaDB
collections and Python dicts. -/
theorem crawl_idempotent (env : Env) (st : KBState) (topic : String) (maxp : Nat)
    (n : Nat) (st' : KBState)
    (hcache : (keys st.paper_metadata).Nodup) (hstore : (keys st.store).Nodup)
    (h : crawl_physics_knowledge env st topic maxp = .ok (n, st')) :
    crawl_physics_knowledge env st' topic maxp = .ok (n, st') := by
  rw [crawl_eq] at h ⊢
  by_cases hok : crawlOk env topic maxp = true
  · rw [if_pos hok] at h ⊢
    have h' := Except.ok.inj h
    have hn : crawlCount env topic maxp = n := congrArg Prod.fst h'
    have hst : ({ paper_metadata :=
                    applyWrites (cacheWritesOf env topic maxp) st.paper_metadata,
                  store :=
                    applyWrites (storeWritesOf env topic maxp) st.store } : KBState) =
        st' := congrArg Prod.snd h'
    have hpm : st'.paper_metadata =
        applyWrites (cacheWritesOf env topic maxp) st.paper_metadata := by
      rw [← hst]
    have hsto : st'.store =
        applyWrites (storeWritesOf env topic maxp) st.store := by
      rw [← hst]
    rw [hpm, hsto, applyWrites_idem _ _ hcache, applyWrites_idem _ _ hstore,
      hn, ← hpm, ← hsto]
  · rw [if_neg hok] at h
    exact absurd h (by simp)

/-- Witness for C5: one concrete successful ingest, re-run from its own
result state, returns the same count and state. -/
theorem crawl_idempotent_witness :
    (keys stEmpty.paper_metadata).Nodup ∧ (keys stEmpty.store).Nodup ∧
    crawl_physics_knowledge envOkC5 stEmpty "t" 5 = .ok (1, stC5) ∧
    crawl_physics_knowledge envOkC5 stC5 "t" 5 = .ok (1, stC5) :=
  ⟨by decide, by decide, rfl,
   crawl_idempotent envOkC5 stEmpty "t" 5 1 stC5 (by decide) (by decide) rfl⟩

/-- C6: `get_reference` returns the cached Reference when the id is cached;
otherwise, when some stored entry's `source_id` metadata equals the id, it
returns a Reference built from such an entry's `title`/`url` metadata (an id
absent from the cache but present in the store still resolves); when neither
tier holds the id it returns `None`, not an error. -/
theorem get_reference_two_tier (st : KBState) (pid : String) :
    (∀ m, lookupKey pid st.paper_metadata = some m →
       get_reference st pid = some ⟨m.title, m.url⟩) ∧
    (lookupKey pid st.paper_metadata = none →
       (∃ kv ∈ st.store, kv.2.meta.source_id = some pid) →
       ∃ kv ∈ st.store, kv.2.meta.source_id = some pid ∧
         get_reference st pid =
           some ⟨kv.2.meta.title.getD "Unknown", kv.2.meta.url.getD ""⟩) ∧
    (lookupKey pid st.paper_metadata = none →
       (∀ kv ∈ st.store, kv.2.meta.source_id ≠ some pid) →
       get_reference st pid = none) := by
  refine ⟨?_, ?_, ?_⟩
  · intro m hm
    unfold get_reference
    rw [hm]
  · intro hc hex
    unfold get_reference
    rw [hc]
    have hsome : ∃ kv, st.store.find?
        (fun e => e.2.meta.source_id == some pid) = some kv := by
      obtain ⟨kv, hkv, hs⟩ := hex
      refine Option.isSome_iff_exists.1 ?_
      rw [List.find?_isSome]
      exact ⟨kv, hkv, by simp [hs]⟩
    obtain ⟨kv, hfind⟩ := hsome
    rw [hfind]
    refine ⟨kv, List.mem_of_find?_eq_some hfind, ?_, rfl⟩
    have := List.find?_some hfind
    simpa using this
  · intro hc hnone
    unfold get_reference
    rw [hc]
    have hfind : st.store.find? (fun e => e.2.meta.source_id == some pid) = none := by
      rw [List.find?_eq_none]
      intro kv hkv
      simp [hnone kv hkv]
    rw [hfind]

/-- Witness for C6: a cache hit, a store-only fallback hit, and a miss. -/
theorem get_reference_two_tier_witness :
    (lookupKey "p1" stCacheOnly.paper_metadata =
       some ⟨"Tc", "Uc", "sc", none⟩ ∧
     get_reference stCacheOnly "p1" = some ⟨"Tc", "Uc"⟩) ∧
    (lookupKey "p1" stStoreOnly.paper_metadata = none ∧
     get_reference stStoreOnly "p1" = some ⟨"Ts", "Us"⟩) ∧
    (lookupKey "zz" stEmpty.paper_metadata = none ∧
     get_reference stEmpty "zz" = none) := by
  refine ⟨⟨rfl, ?_⟩, ⟨rfl, ?_⟩, ⟨rfl, ?_⟩⟩
  · exact (get_reference_two_tier stCacheOnly "p1").1 _ rfl
  · obtain ⟨kv, hkv, -, he⟩ :=
      (get_reference_two_tier stStoreOnly "p1").2.1 rfl
        ⟨("p1_chunk_0",
          ⟨"txt", ⟨some "p1", some "Ts", some 1, some "Us", some "paper_content"⟩⟩),
         by simp [stStoreOnly], rfl⟩
    have hkv' : kv = ("p1_chunk_0",
        ⟨"txt", ⟨some "p1", some "Ts", some 1, some "Us", some "paper_content"⟩⟩) := by
      simpa [stStoreOnly] using hkv
    rw [hkv'] at he
    exact he
  · refine (get_reference_two_tier stEmpty "zz").2.2 rfl ?_
    intro kv hkv
    simp [stEmpty] at hkv

/-- C7: `query_physics_db` returns the empty sequence (and cannot raise, being
a total function of the query outcome) when the store query fails and when it
returns zero matches — an empty store being the latter case. -/
theorem query_failure_or_empty_yields_nil (env : Env) (q : String) (k : Nat) :
    (env.query q k = .error () → query_physics_db env q k = []) ∧
    (env.query q k = .ok [] → query_physics_db env q k = []) := by
  constructor
  · intro h
    unfold query_physics_db
    rw [h]
  · intro h
    unfold query_physics_db
    rw [h]
    rfl

/-- Witness for C7: a failing query call and an empty result set. -/
theorem query_failure_or_empty_yields_nil_witness :
    (envQueryFail.query "q" 3 = .error () ∧
     query_physics_db envQueryFail "q" 3 = []) ∧
    (envQueryEmpty.query "q" 3 = .ok [] ∧
     query_physics_db envQueryEmpty "q" 3 = []) :=
  ⟨⟨rfl, (query_failure_or_empty_yields_nil envQueryFail "q" 3).1 rfl⟩,
   ⟨rfl, (query_failure_or_empty_yields_nil envQueryEmpty "q" 3).2 rfl⟩⟩

/-- C8: the crawl returns 0 without raising, leaving the state unchanged,
both when discovery returns zero results and when the discovery call itself
fails. -/
theorem crawl_no_discovery_returns_zero (env : Env) (st : KBState) (topic : String)
    (maxp : Nat)
    (h : env.search topic maxp = .error () ∨ env.search topic maxp = .ok []) :
    crawl_physics_knowledge env st topic maxp = .ok (0, st) := by
  have hnil : papersOf env topic maxp = [] := by
    unfold papersOf
    rcases h with h | h <;> rw [h]
  rw [crawl_eq]
  unfold crawlOk crawlCount cacheWritesOf storeWritesOf
  rw [hnil]
  simp [applyWrites_nil]

/-- Witness for C8: a failed discovery call and a zero-result discovery. -/
theorem crawl_no_discovery_returns_zero_witness :
    (envSearchFail.search "t" 5 = .error () ∨ envSearchFail.search "t" 5 = .ok []) ∧
    crawl_physics_knowledge envSearchFail stEmpty "t" 5 = .ok (0, stEmpty) ∧
    (envNoPapers.search "t" 5 = .error () ∨ envNoPapers.search "t" 5 = .ok []) ∧
    crawl_physics_knowledge envNoPapers stEmpty "t" 5 = .ok (0, stEmpty) :=
  ⟨.inl rfl, crawl_no_discovery_returns_zero envSearchFail stEmpty "t" 5 (.inl rfl),
   .inr rfl, crawl_no_discovery_returns_zero envNoPapers stEmpty "t" 5 (.inr rfl)⟩

/-- C10: `search_arxiv` caches every discovered paper's title and url before
any ingestion work, so after a crawl a discovered paper resolves through the
tier-1 cache even when the store holds no entry for its id (e.g. because its
extraction or storage failed). -/
theorem cache_resolves_unstored_paper (env : Env) (st : KBState) (topic : String)
    (maxp : Nat) (p : Paper) (n : Nat) (st' : KBState)
    (hids : ((papersOf env topic maxp).map Paper.paper_id).Nodup)
    (hp : p ∈ papersOf env topic maxp)
    (h : crawl_physics_knowledge env st topic maxp = .ok (n, st'))
    (hnostore : ∀ kv ∈ st'.store, kv.2.meta.source_id ≠ some p.paper_id) :
    get_reference st' p.paper_id = some ⟨p.title, p.pdf_url⟩ := by
  rw [crawl_eq] at h
  by_cases hok : crawlOk env topic maxp = true
  · rw [if_pos hok] at h
    have h' := Except.ok.inj h
    have hst : ({ paper_metadata :=
                    applyWrites (cacheWritesOf env topic maxp) st.paper_metadata,
                  store :=
                    applyWrites (storeWritesOf env topic maxp) st.store } : KBState) =
        st' := congrArg Prod.snd h'
    have hpm : st'.paper_metadata =
        applyWrites (cacheWritesOf env topic maxp) st.paper_metadata := by
      rw [← hst]
    have hlk : lookupKey p.paper_id st'.paper_metadata = some (cacheEntry p) := by
      rw [hpm, lookupKey_applyWrites]
      unfold cacheWritesOf
      rw [lastWrite_cacheWrites hids hp]
      rfl
    unfold get_reference
    rw [hlk]
    rfl
  · rw [if_neg hok] at h
    exact absurd h (by simp)

/-- Witness for C10: the paper's PDF never downloads, so nothing is stored,
yet the cached discovery metadata resolves the reference. -/
theorem cache_resolves_unstored_paper_witness :
    ((papersOf envExtractFail "t" 5).map Paper.paper_id).Nodup ∧
    paper1 ∈ papersOf envExtractFail "t" 5 ∧
    crawl_physics_knowledge envExtractFail stEmpty "t" 5 = .ok (0, stC10) ∧
    (∀ kv ∈ stC10.store, kv.2.meta.source_id ≠ some "p1") ∧
    get_reference stC10 "p1" = some ⟨"T1", "u1"⟩ := by
  refine ⟨by decide, by decide, rfl, ?_, ?_⟩
  · intro kv hkv
    simp [stC10] at hkv
  · exact cache_resolves_unstored_paper envExtractFail stEmpty "t" 5 paper1 0 stC10
      (by decide) (by decide) rfl (by intro kv hkv; simp [stC10] at hkv)

end PhysKB
